import Mathlib

/-!
Verification development for the incidents-client repository.

Shallow embedding of the state/I-O coordination layer:
- the store's reducers (src/core/store/reducers.js) and action creators
  (src/core/store/actions.js),
- the Store dispatch pipeline (src/core/store/store.js),
- the worker bridge (src/core/workers/worker-bridge.js),
- the background API executor and its response cache
  (src/core/workers/api.worker.js),
- the API service facade (src/core/services/api.service.js).

JavaScript dynamic values are modelled as follows: primitives (null,
booleans, numbers, strings) form `Prim`; a flat object is a function from
property names to `Option Prim` (`none` models an absent property, which
JavaScript reads as undefined; a property explicitly set to undefined is
conflated with an absent one); `PVal` adds undefined, objects and arrays of
objects.  Reference identity of objects is not modelled: strict equality
`===` is modelled structurally on primitives and undefined, and as false
between (distinct-literal) objects, which is the behaviour the analysed
code paths exercise (all compared values there are primitive ids or
undefined).  Numbers are modelled as integers (no float arithmetic occurs
in the compared code paths).
-/

namespace IncidentsClient

/-- JS primitive values (null, booleans, integers-as-numbers, strings). -/
inductive Prim where
  | null
  | bool (b : Bool)
  | num (n : Int)
  | str (s : String)
deriving DecidableEq, Repr

/-- A flat JS object: property name to optional primitive value.
`none` models a property that is absent (reads as undefined). -/
def Obj : Type := String → Option Prim

/-- A JS dynamic value as passed around by the store layer:
undefined, a primitive, a flat object, or an array of objects. -/
inductive PVal where
  | undefined
  | prim (p : Prim)
  | obj (o : Obj)
  | arr (xs : List Obj)

/-- JS truthiness of a primitive value. -/
def Prim.truthy : Prim → Bool
  | .null => false
  | .bool b => b
  | .num n => n != 0
  | .str s => s != ""

/-- Property read `v.k` on a dynamic value: objects look the property up,
primitives and undefined read as undefined (JS would throw on
null/undefined receivers; the analysed code never reads properties off a
nullish value on the claim-relevant paths). -/
def PVal.getField : PVal → String → Option Prim
  | .obj o, k => o k
  | _, _ => none

/-- View a dynamic value as an object for spread `{...v}`: non-objects
spread no properties (JS spreads nothing for numbers/booleans/null). -/
def PVal.asObj : PVal → Obj
  | .obj o => o
  | _ => fun _ => none

/-- An absent-or-present field value, as a dynamic value (undefined when
the property is absent). -/
def fieldVal : Option Prim → PVal
  | some p => .prim p
  | none => .undefined

/-- Strict equality `===` between dynamic values: structural on
primitives, true on undefined === undefined, false across kinds and
between object literals (reference identity is not modelled). -/
def jsStrictEq : PVal → PVal → Bool
  | .undefined, .undefined => true
  | .prim p, .prim q => p == q
  | _, _ => false

/-- Object spread merge `{...a, ...b}`: properties of `b` win. -/
def Obj.merge (a b : Obj) : Obj :=
  fun k => match b k with
  | some v => some v
  | none => a k

/-- Single-property update `{...o, k: v}`. -/
def Obj.setProp (o : Obj) (k : String) (v : Option Prim) : Obj :=
  fun k' => if k' = k then v else o k'

/-! Action types, from src/core/store/actions.js (the `ActionTypes`
table, exported as `ACTION_TYPES`). -/

def ACTION_TYPES.UI.SET_LOADING : String := "ui/setLoading"
def ACTION_TYPES.UI.SET_DARK_MODE : String := "ui/setDarkMode"
def ACTION_TYPES.UI.TOGGLE_MENU : String := "ui/toggleMenu"
def ACTION_TYPES.UI.SET_FILTER_STATUS : String := "ui/setFilterStatus"
def ACTION_TYPES.INCIDENTS.LOAD_INCIDENTS : String := "incidents/loadIncidents"
def ACTION_TYPES.INCIDENTS.SET_INCIDENTS : String := "incidents/setIncidents"
def ACTION_TYPES.INCIDENTS.ADD_INCIDENT : String := "incidents/addIncident"
def ACTION_TYPES.INCIDENTS.UPDATE_INCIDENT : String := "incidents/updateIncident"
def ACTION_TYPES.INCIDENTS.DELETE_INCIDENT : String := "incidents/deleteIncident"
def ACTION_TYPES.INCIDENTS.SET_CURRENT_INCIDENT : String := "incidents/setCurrentIncident"
def ACTION_TYPES.INCIDENTS.CLEAR_CURRENT_INCIDENT : String := "incidents/clearCurrentIncident"
def ACTION_TYPES.NOTIFICATIONS.ADD_NOTIFICATION : String := "notifications/addNotification"
def ACTION_TYPES.NOTIFICATIONS.REMOVE_NOTIFICATION : String := "notifications/removeNotification"
def ACTION_TYPES.NOTIFICATIONS.MARK_NOTIFICATION_DISPLAYED : String := "notifications/markNotificationDisplayed"
def ACTION_TYPES.ERRORS.SET_ERROR : String := "errors/setError"
def ACTION_TYPES.ERRORS.CLEAR_ERROR : String := "errors/clearError"

/-- A dispatched action object `{type, payload}`.  `type : Option String`
so that an action missing its `type` property is representable (`none`). -/
structure Action where
  type : Option String
  payload : PVal

/-- The generic action creator `createAction(type)` applied to a payload:
produces `{type, payload}` (actions.js, `createAction`). -/
def createAction (ty : String) (payload : PVal) : Action :=
  ⟨some ty, payload⟩

/-- Action creator `actions.updateIncident` (actions.js). -/
def actions.updateIncident (payload : PVal) : Action :=
  createAction ACTION_TYPES.INCIDENTS.UPDATE_INCIDENT payload

/-- Action creator `actions.deleteIncident` (actions.js). -/
def actions.deleteIncident (payload : PVal) : Action :=
  createAction ACTION_TYPES.INCIDENTS.DELETE_INCIDENT payload

/-! Reducers, from src/core/store/reducers.js.  Each slice reducer there
takes `(state, action, globalState)` and never reads `globalState`; the
unused third argument is dropped here.  The incidents slice is typed as a
list of (flat) objects: the SET_INCIDENTS case returns
`action.payload || []`, which for a truthy non-array payload would store
that payload as the slice verbatim (a JS type confusion outside every
claim); the model maps any non-array payload to `[]`.  Similarly
ADD_INCIDENT appends `action.payload`, modelled for object payloads. -/

/-- Reducer for the incidents slice (`incidentsReducer`). -/
def incidentsReducer (state : List Obj) (action : Action) : List Obj :=
  if action.type = some ACTION_TYPES.INCIDENTS.SET_INCIDENTS then
    match action.payload with
    | .arr xs => xs
    | _ => []
  else if action.type = some ACTION_TYPES.INCIDENTS.ADD_INCIDENT then
    state ++ [action.payload.asObj]
  else if action.type = some ACTION_TYPES.INCIDENTS.UPDATE_INCIDENT then
    state.map fun incident =>
      if incident "id" = action.payload.getField "id" then
        Obj.merge incident action.payload.asObj
      else incident
  else if action.type = some ACTION_TYPES.INCIDENTS.DELETE_INCIDENT then
    state.filter fun incident =>
      !(jsStrictEq (fieldVal (incident "id")) action.payload)
  else state

/-- Reducer for the currentIncident slice (`currentIncidentReducer`).
The slice is `Option Obj`: `none` models null (and the object branch of
SET_CURRENT_INCIDENT models the expected object payload; a primitive
payload there would store that primitive, outside every claim).
The source guards UPDATE/DELETE with `state && ...`: a non-null object is
always truthy, so the guard is exactly the `some` match. -/
def currentIncidentReducer (state : Option Obj) (action : Action) : Option Obj :=
  if action.type = some ACTION_TYPES.INCIDENTS.SET_CURRENT_INCIDENT then
    match action.payload with
    | .obj o => some o
    | _ => none
  else if action.type = some ACTION_TYPES.INCIDENTS.CLEAR_CURRENT_INCIDENT then
    none
  else if action.type = some ACTION_TYPES.INCIDENTS.UPDATE_INCIDENT then
    match state with
    | some st =>
      if st "id" = action.payload.getField "id" then
        some (Obj.merge st action.payload.asObj)
      else some st
    | none => none
  else if action.type = some ACTION_TYPES.INCIDENTS.DELETE_INCIDENT then
    match state with
    | some st =>
      if jsStrictEq (fieldVal (st "id")) action.payload then none
      else some st
    | none => none
  else state

/-- Reducer for the notifications slice (`notificationsReducer`). -/
def notificationsReducer (state : List Obj) (action : Action) : List Obj :=
  if action.type = some ACTION_TYPES.NOTIFICATIONS.ADD_NOTIFICATION then
    state ++ [action.payload.asObj]
  else if action.type = some ACTION_TYPES.NOTIFICATIONS.REMOVE_NOTIFICATION then
    state.filter fun n => !(jsStrictEq (fieldVal (n "id")) action.payload)
  else if action.type = some ACTION_TYPES.NOTIFICATIONS.MARK_NOTIFICATION_DISPLAYED then
    state.map fun n =>
      if jsStrictEq (fieldVal (n "id")) action.payload then
        n.setProp "displayed" (some (.bool true))
      else n
  else state

/-- Reducer for the error slice (`errorReducer`); the slice holds the raw
payload (`null` initially / after CLEAR_ERROR). -/
def errorReducer (state : PVal) (action : Action) : PVal :=
  if action.type = some ACTION_TYPES.ERRORS.SET_ERROR then action.payload
  else if action.type = some ACTION_TYPES.ERRORS.CLEAR_ERROR then .prim .null
  else state

/-- Reducer for the global loading slice (`loadingReducer`); stores the
raw payload of SET_LOADING. -/
def loadingReducer (state : PVal) (action : Action) : PVal :=
  if action.type = some ACTION_TYPES.UI.SET_LOADING then action.payload
  else state

/-- Truthiness of a possibly-absent field, for `!state.menuOpen`. -/
def fieldTruthy : Option Prim → Bool
  | some p => p.truthy
  | none => false

/-- View a dynamic value as a stored flat-object property (`uiReducer`
stores payloads into `ui`'s properties; object/array payloads there are a
JS type confusion outside every claim and are conflated with absence). -/
def PVal.asFieldVal : PVal → Option Prim
  | .prim p => some p
  | _ => none

/-- Reducer for the ui slice (`uiReducer`), a flat object. -/
def uiReducer (state : Obj) (action : Action) : Obj :=
  if action.type = some ACTION_TYPES.UI.SET_LOADING then
    state.setProp "loading" action.payload.asFieldVal
  else if action.type = some ACTION_TYPES.UI.SET_DARK_MODE then
    state.setProp "darkMode" action.payload.asFieldVal
  else if action.type = some ACTION_TYPES.UI.TOGGLE_MENU then
    match action.payload with
    | .undefined => state.setProp "menuOpen" (some (.bool (!(fieldTruthy (state "menuOpen")))))
    | p => state.setProp "menuOpen" p.asFieldVal
  else if action.type = some ACTION_TYPES.UI.SET_FILTER_STATUS then
    state.setProp "filterStatus" action.payload.asFieldVal
  else state

/-- The state tree (store.js `initialState` shape; the development-only
`_actionLog` bookkeeping is not modelled). -/
structure AppState where
  loading : PVal
  incidents : List Obj
  currentIncident : Option Obj
  notifications : List Obj
  error : PVal
  ui : Obj

/-- The combined reducer produced by `createReducer()` (reducers.js):
each slice is reduced independently; state properties without a reducer
pass through unchanged (there are none besides the unmodelled log). -/
def createReducer (s : AppState) (action : Action) : AppState :=
  { loading := loadingReducer s.loading action
    incidents := incidentsReducer s.incidents action
    currentIncident := currentIncidentReducer s.currentIncident action
    notifications := notificationsReducer s.notifications action
    error := errorReducer s.error action
    ui := uiReducer s.ui action }

/-! The Store dispatch pipeline, from src/core/store/store.js.

`dispatch` (lines 74-118) validates the action synchronously, stamps it
with `_id`/`_timestamp`, calls every registered middleware (each returns a
promise), registers a `Promise.all(...).then(...)` continuation that runs
the reducer, swaps the state reference and notifies the subscribers, and
then returns `enhancedAction` — a plain object, not a promise.

The asynchronous part is modelled as an explicit event system: a dispatch
appends a pending join carrying the enhanced action and the number of its
middlewares that have not settled yet; `settleOne` is one asynchronous
step of the event loop (the settlement of one middleware promise, or —
once all have settled — the microtask that runs the `Promise.all`
continuation).  Middleware bodies are opaque side effects (they do not
touch the store on the analysed paths) and are represented only by their
settlement count.  Subscriber invocations are recorded in an append-only
log; the per-subscriber try/catch in `notifySubscribers` swallows
subscriber exceptions, so an invocation is logged irrespective of the
subscriber's own outcome. -/

/-- An enhanced action: the dispatched action plus the `_id` (the bumped
`actionCounter`) and `_timestamp` metadata added by `dispatch`. -/
structure EAction where
  type : Option String
  payload : PVal
  metaId : Nat
  metaTimestamp : Int

/-- The action part of an enhanced action (the reducers read only
`type` and `payload`). -/
def EAction.toAction (ea : EAction) : Action := ⟨ea.type, ea.payload⟩

/-- The dynamic value the `dispatch` call returns to its caller: the
enhanced action object (store.js line 117), or — what the spec expected —
a promise value.  The source has a single return path, `return
enhancedAction`. -/
inductive DispatchRet where
  | actionObject (ea : EAction)
  | promiseValue (pid : Nat)

/-- Whether the returned value is a promise (a deferred). -/
def DispatchRet.isPromise : DispatchRet → Bool
  | .actionObject _ => false
  | .promiseValue _ => true

/-- The Store instance fields touched by dispatch: the state reference,
the subscriber set (insertion-ordered, duplicate-free identities), the
registered middleware count and the action counter. -/
structure StoreSt where
  state : AppState
  subscribers : List Nat
  middlewareCount : Nat
  actionCounter : Nat

/-- A pending `Promise.all(middlewarePromises).then(...)` continuation:
the enhanced action it will reduce with and how many of its middleware
promises have not settled yet. -/
structure PendingJoin where
  ea : EAction
  remaining : Nat

/-- The store together with its asynchronous context: pending joins (in
creation order) and the log of subscriber invocations
`(subscriber, state passed)`. -/
structure StoreSys where
  store : StoreSt
  joins : List PendingJoin
  notifLog : List (Nat × AppState)

/-- Truthiness of the `type` property (`!action.type` fails for a missing
property and for the empty string; every other string is truthy). -/
def typeTruthy : Option String → Bool
  | some s => s != ""
  | none => false

/-- The validation error message thrown by `dispatch`. -/
def dispatchValidationMsg : String :=
  "Las acciones deben ser objetos con una propiedad \"type\""

/-- The synchronous part of `Store.dispatch` (store.js lines 74-118):
validate, stamp metadata, start the middlewares (registering the join) and
return the enhanced action object.  An `Except.error` models the
synchronous throw: nothing was scheduled and the store is untouched. -/
def dispatchSync (sys : StoreSys) (a : Action) (now : Int) :
    Except String (DispatchRet × StoreSys) :=
  if typeTruthy a.type = false then
    .error dispatchValidationMsg
  else
    let counter' := sys.store.actionCounter + 1
    let ea : EAction := ⟨a.type, a.payload, counter', now⟩
    .ok (.actionObject ea,
      { sys with
        store := { sys.store with actionCounter := counter' }
        joins := sys.joins ++ [⟨ea, sys.store.middlewareCount⟩] })

/-- The `Promise.all` continuation of one dispatch (store.js lines
94-115): compute the next state from the current state reference, swap it
in, then notify every subscriber once with the new state. -/
def runContinuation (sys : StoreSys) (ea : EAction) : StoreSys :=
  let next := createReducer sys.store.state ea.toAction
  { store := { sys.store with state := next }
    joins := sys.joins
    notifLog := sys.notifLog ++ sys.store.subscribers.map (fun sub => (sub, next)) }

/-- One asynchronous step of the event loop, acting on the oldest pending
dispatch: settle one of its outstanding middleware promises, or — when
all have settled — run its `Promise.all` continuation. -/
def settleOne (sys : StoreSys) : StoreSys :=
  match sys.joins with
  | [] => sys
  | j :: rest =>
    match j.remaining with
    | 0 => runContinuation { sys with joins := rest } j.ea
    | r + 1 => { sys with joins := ⟨j.ea, r⟩ :: rest }

/-! The worker bridge, from src/core/workers/worker-bridge.js.

Correlation ids are the strings produced by `generateMessageId()`:
the template literal rendering of `msg_${Date.now()}_${messageIdCounter++}`
(decimal renderings of the current time and of a monotonically increasing
module-level counter).  The development below establishes that this
rendering is injective — the heart of the global-uniqueness claim — by
characterising `Nat.repr` as a digit list. -/

/-- The decimal digit list of a natural number, most significant first
(the list `Nat.repr` renders). -/
def natDigits (n : Nat) : List Char :=
  if h : n < 10 then [Nat.digitChar n]
  else natDigits (n / 10) ++ [Nat.digitChar (n % 10)]
termination_by n
decreasing_by exact Nat.div_lt_self (by omega) (by omega)

theorem toDigitsCore_append (b : Nat) :
    ∀ (fuel n : Nat) (acc : List Char),
      Nat.toDigitsCore b fuel n acc = Nat.toDigitsCore b fuel n [] ++ acc := by
  intro fuel
  induction fuel with
  | zero => intro n acc; simp [Nat.toDigitsCore]
  | succ f ih =>
    intro n acc
    simp only [Nat.toDigitsCore]
    by_cases h : n / b = 0
    · simp [h]
    · simp only [h, if_false]
      rw [ih (n / b) [Nat.digitChar (n % b)],
        ih (n / b) (Nat.digitChar (n % b) :: acc)]
      simp

theorem toDigitsCore_eq_natDigits :
    ∀ (fuel n : Nat), n < fuel → Nat.toDigitsCore 10 fuel n [] = natDigits n := by
  intro fuel
  induction fuel with
  | zero => omega
  | succ f ih =>
    intro n hn
    rw [natDigits]
    by_cases h : n < 10
    · have hdiv : n / 10 = 0 := Nat.div_eq_of_lt h
      have hmod : n % 10 = n := Nat.mod_eq_of_lt h
      simp [Nat.toDigitsCore, hdiv, hmod, h]
    · have hn10 : 10 ≤ n := by omega
      have hdiv : n / 10 ≠ 0 := by
        have : 1 ≤ n / 10 := Nat.one_le_div_iff (by omega) |>.mpr hn10
        omega
      have hlt : n / 10 < f := by
        have h1 : n / 10 < n := Nat.div_lt_self (by omega) (by omega)
        omega
      simp only [Nat.toDigitsCore, hdiv, if_false, h]
      rw [toDigitsCore_append 10 f (n / 10) [Nat.digitChar (n % 10)], ih (n / 10) hlt]
      simp

theorem digitChar_isDigit (m : Nat) (h : m < 10) : (Nat.digitChar m).isDigit = true := by
  interval_cases m <;> decide

theorem digitChar_toNat (m : Nat) (h : m < 10) : (Nat.digitChar m).toNat - 48 = m := by
  interval_cases m <;> decide

theorem natDigits_isDigit (n : Nat) : ∀ c ∈ natDigits n, c.isDigit = true := by
  induction n using Nat.strong_induction_on with
  | _ n ih =>
    rw [natDigits]
    by_cases h : n < 10
    · simp only [h, dif_pos, List.mem_singleton]
      intro c hc
      subst hc
      exact digitChar_isDigit n h
    · simp only [h, dif_neg, not_false_iff, List.mem_append, List.mem_singleton]
      intro c hc
      rcases hc with hc | hc
      · exact ih (n / 10) (Nat.div_lt_self (by omega) (by omega)) c hc
      · subst hc
        exact digitChar_isDigit (n % 10) (Nat.mod_lt _ (by omega))

/-- Decimal-digit evaluation, left fold (inverse of `natDigits`). -/
def ofDigits (l : List Char) : Nat :=
  l.foldl (fun a c => 10 * a + (c.toNat - 48)) 0

theorem ofDigits_natDigits (n : Nat) : ofDigits (natDigits n) = n := by
  induction n using Nat.strong_induction_on with
  | _ n ih =>
    rw [natDigits]
    by_cases h : n < 10
    · simp only [h, dif_pos, ofDigits, List.foldl_cons, List.foldl_nil]
      simpa using digitChar_toNat n h
    · simp only [h, dif_neg, not_false_iff, ofDigits, List.foldl_append,
        List.foldl_cons, List.foldl_nil]
      have hrec := ih (n / 10) (Nat.div_lt_self (by omega) (by omega))
      simp only [ofDigits] at hrec
      rw [hrec, digitChar_toNat (n % 10) (Nat.mod_lt _ (by omega))]
      omega

theorem natDigits_inj {m n : Nat} (h : natDigits m = natDigits n) : m = n := by
  have := congrArg ofDigits h
  rwa [ofDigits_natDigits, ofDigits_natDigits] at this

theorem repr_data (n : Nat) : (Nat.repr n).data = natDigits n := by
  have h : Nat.toDigits 10 n = natDigits n :=
    toDigitsCore_eq_natDigits (n + 1) n (by omega)
  show (List.asString (Nat.toDigits 10 n)).data = natDigits n
  rw [h]
  rfl

theorem repr_no_underscore (n : Nat) : ∀ c ∈ (Nat.repr n).data, c ≠ '_' := by
  rw [repr_data]
  intro c hc
  have := natDigits_isDigit n c hc
  intro hEq
  subst hEq
  simp at this

theorem repr_inj {m n : Nat} (h : Nat.repr m = Nat.repr n) : m = n := by
  have := congrArg String.data h
  rw [repr_data, repr_data] at this
  exact natDigits_inj this

/-- Splitting a character list at a separator that occurs in neither
half determines both halves. -/
theorem split_at_sep :
    ∀ (A C B D : List Char), (∀ c ∈ A, c ≠ '_') → (∀ c ∈ C, c ≠ '_') →
      A ++ '_' :: B = C ++ '_' :: D → A = C ∧ B = D := by
  intro A
  induction A with
  | nil =>
    intro C B D _ hC hEq
    cases C with
    | nil => simpa using hEq
    | cons c cs =>
      simp only [List.nil_append, List.cons_append, List.cons.injEq] at hEq
      exact absurd hEq.1.symm (hC c (by simp))
  | cons a as ih =>
    intro C B D hA hC hEq
    cases C with
    | nil =>
      simp only [List.cons_append, List.nil_append, List.cons.injEq] at hEq
      exact absurd hEq.1 (hA a (by simp))
    | cons c cs =>
      simp only [List.cons_append, List.cons.injEq] at hEq
      obtain ⟨hac, hrest⟩ := hEq
      have := ih cs B D (fun x hx => hA x (by simp [hx])) (fun x hx => hC x (by simp [hx])) hrest
      exact ⟨by simp [hac, this.1], this.2⟩

/-- Correlation-id generation (worker-bridge.js lines 235-237): the
template literal rendering of msg underscore time underscore counter,
where the counter is the module-level `messageIdCounter`, incremented on
every call. -/
def generateMessageId (now : Nat) (counter : Nat) : String :=
  "msg_" ++ Nat.repr now ++ "_" ++ Nat.repr counter

theorem generateMessageId_inj {t1 n1 t2 n2 : Nat}
    (h : generateMessageId t1 n1 = generateMessageId t2 n2) :
    t1 = t2 ∧ n1 = n2 := by
  have hd := congrArg String.data h
  simp only [generateMessageId, String.data_append] at hd
  have hd' :
      ('m' :: 's' :: 'g' :: '_' :: ((Nat.repr t1).data ++ '_' :: (Nat.repr n1).data))
        = ('m' :: 's' :: 'g' :: '_' :: ((Nat.repr t2).data ++ '_' :: (Nat.repr n2).data)) := by
    simpa using hd
  simp only [List.cons.injEq, true_and] at hd'
  have hsplit := split_at_sep (Nat.repr t1).data (Nat.repr t2).data
    (Nat.repr n1).data (Nat.repr n2).data
    (repr_no_underscore t1) (repr_no_underscore t2) hd'
  constructor
  · exact repr_inj (String.ext hsplit.1)
  · exact repr_inj (String.ext hsplit.2)

/-! The bridge's mutable module state and its event-step semantics.

The source keeps a `workers` map (name → Worker), a `pendingCallbacks`
map (correlation id → resolve/reject callbacks) and the counter.  A
pending entry's callbacks belong to the promise created by the
`sendToWorker` call that registered it; that promise is identified here by
the counter value embedded in its correlation id (the value
`messageIdCounter` had at the send).  Settlements of those promises are
recorded in an append-only log `(send counter value, resolved?)`; ids of
every message posted to a worker are recorded in `posted`. -/

/-- An association-list finite map with JS `Map` semantics
(insertion order, `set` overwrites an existing key in place). -/
def mapHas (m : List (String × Nat)) (k : String) : Bool :=
  m.any fun e => e.1 = k

def mapGet (m : List (String × Nat)) (k : String) : Option Nat :=
  (m.find? fun e => e.1 = k).map (·.2)

def mapSet (m : List (String × Nat)) (k : String) (v : Nat) : List (String × Nat) :=
  if mapHas m k then m.map (fun e => if e.1 = k then (k, v) else e)
  else m ++ [(k, v)]

def mapDelete (m : List (String × Nat)) (k : String) : List (String × Nat) :=
  m.filter fun e => e.1 ≠ k

/-- The bridge module state (worker-bridge.js lines 222-229): the
registry of active worker names, the message-id counter, the pending
callbacks map, plus the two observation logs described above. -/
structure BridgeSt where
  workers : List String
  counter : Nat
  pending : List (String × Nat)
  posted : List String
  settled : List (Nat × Bool)
deriving DecidableEq, Repr

/-- Asynchronous events the bridge reacts to: a `sendToWorker` call (with
the worker name and the current time), an inbound response message
carrying a correlation id, and the firing of the 30-second timeout timer
armed for a given correlation id. -/
inductive BEvent where
  | send (workerName : String) (now : Nat)
  | response (id : String)
  | timeoutFire (id : String)
deriving DecidableEq, Repr

/-- One bridge event step.

send (worker-bridge.js lines 294-325): an uninitialized worker rejects
synchronously without registering anything; otherwise a fresh id is
generated (incrementing the counter), its callbacks are registered and
the message is posted.

response (lines 252-270): only an entry whose id matches is
resolved-and-removed; a response whose id is absent (already resolved,
timed out, or falsy) is ignored.

timeoutFire (lines 316-324): if the entry is still pending it is removed
and its promise rejected; otherwise the timer does nothing. -/
def bridgeStep (st : BridgeSt) (e : BEvent) : BridgeSt :=
  match e with
  | .send w now =>
    if w ∈ st.workers then
      let id := generateMessageId now st.counter
      { st with
        counter := st.counter + 1
        pending := mapSet st.pending id st.counter
        posted := st.posted ++ [id] }
    else st
  | .response id =>
    if id ≠ "" ∧ mapHas st.pending id then
      match mapGet st.pending id with
      | some v =>
        { st with
          pending := mapDelete st.pending id
          settled := st.settled ++ [(v, true)] }
      | none => st
    else st
  | .timeoutFire id =>
    if mapHas st.pending id then
      match mapGet st.pending id with
      | some v =>
        { st with
          pending := mapDelete st.pending id
          settled := st.settled ++ [(v, false)] }
      | none => st
    else st

/-- Run a sequence of bridge events. -/
def bridgeRun (st : BridgeSt) (es : List BEvent) : BridgeSt :=
  es.foldl bridgeStep st

/-- The bridge module state at start-up: counter 0, nothing pending,
`names` the initialized workers. -/
def bridgeInit (names : List String) : BridgeSt :=
  ⟨names, 0, [], [], []⟩

/-- terminateWorker (worker-bridge.js lines 356-372): tears down the
registry entry and removes the pending entries whose id starts with the
worker's name followed by an underscore.  String.startsWith is modelled
as a character-list test. -/
def charsLeads : List Char → List Char → Bool
  | [], _ => true
  | _ :: _, [] => false
  | a :: as, b :: bs => a == b && charsLeads as bs

def jsStartsWith (s pre : String) : Bool :=
  charsLeads pre.data s.data

def terminateWorker (st : BridgeSt) (name : String) : BridgeSt :=
  if name ∈ st.workers then
    { st with
      workers := st.workers.erase name
      pending := st.pending.filter fun e => !(jsStartsWith e.1 (name ++ "_")) }
  else st

/-! Bridge invariants: every id ever produced embeds the counter value of
its send, the counter only grows, and settlement of a promise removes its
pending entry — giving global id uniqueness and at-most-once
resolution. -/

/-- An id generated while the counter was still below `c`. -/
def goodId (c : Nat) (id : String) : Prop :=
  ∃ t n, n < c ∧ id = generateMessageId t n

/-- Invariant of the bridge module state. -/
structure BridgeInv (st : BridgeSt) : Prop where
  pendingGood : ∀ e ∈ st.pending, (∃ t, e.1 = generateMessageId t e.2) ∧ e.2 < st.counter
  pendingNodup : (st.pending.map (·.2)).Nodup
  postedGood : ∀ id ∈ st.posted, goodId st.counter id
  postedNodup : st.posted.Nodup
  settledNodup : (st.settled.map (·.1)).Nodup
  settledLt : ∀ r ∈ st.settled, r.1 < st.counter
  disj : ∀ e ∈ st.pending, ∀ r ∈ st.settled, e.2 ≠ r.1

theorem mapHas_eq_false {m : List (String × Nat)} {k : String}
    (h : ∀ e ∈ m, e.1 ≠ k) : mapHas m k = false := by
  simp only [mapHas, List.any_eq_false]
  intro e he
  simpa using h e he

theorem mapSet_fresh {m : List (String × Nat)} {k : String} (v : Nat)
    (h : ∀ e ∈ m, e.1 ≠ k) : mapSet m k v = m ++ [(k, v)] := by
  simp [mapSet, mapHas_eq_false h]

theorem mem_mapDelete {m : List (String × Nat)} {k : String} {e : String × Nat} :
    e ∈ mapDelete m k ↔ e ∈ m ∧ e.1 ≠ k := by
  simp [mapDelete]

theorem mapGet_mem {m : List (String × Nat)} {k : String} {v : Nat}
    (h : mapGet m k = some v) : (k, v) ∈ m := by
  simp only [mapGet, Option.map_eq_some'] at h
  obtain ⟨e, he, hv⟩ := h
  have hmem := List.mem_of_find?_eq_some he
  have hk := List.find?_some he
  simp only [decide_eq_true_eq] at hk
  cases e
  simp_all

theorem bridgeInv_step (st : BridgeSt) (e : BEvent) (h : BridgeInv st) :
    BridgeInv (bridgeStep st e) := by
  cases e with
  | send w now =>
    simp only [bridgeStep]
    by_cases hw : w ∈ st.workers
    · simp only [hw, if_true]
      have hfresh : ∀ e ∈ st.pending, e.1 ≠ generateMessageId now st.counter := by
        intro e he hEq
        have hg := h.pendingGood e he
        obtain ⟨⟨t, hid⟩, hlt⟩ := hg
        rw [hid] at hEq
        have := (generateMessageId_inj hEq).2
        omega
      rw [mapSet_fresh st.counter hfresh]
      refine ⟨?_, ?_, ?_, ?_, ?_, ?_, ?_⟩ <;> dsimp only
      · intro e he
        rcases List.mem_append.mp he with he | he
        · have := h.pendingGood e he
          exact ⟨this.1, by omega⟩
        · simp only [List.mem_singleton] at he
          subst he
          exact ⟨⟨now, rfl⟩, by omega⟩
      · have hlt : ∀ v ∈ st.pending.map (·.2), v < st.counter := by
          intro v hv
          simp only [List.mem_map] at hv
          obtain ⟨e, he, hv⟩ := hv
          have := (h.pendingGood e he).2
          omega
        simp only [List.map_append, List.map_cons, List.map_nil]
        refine List.Nodup.append h.pendingNodup (by simp) ?_
        intro v hv hv'
        simp only [List.mem_singleton] at hv'
        have := hlt v hv
        omega
      · intro id hid
        rcases List.mem_append.mp hid with hid | hid
        · obtain ⟨t, n, hn, hEq⟩ := h.postedGood id hid
          exact ⟨t, n, by omega, hEq⟩
        · simp only [List.mem_singleton] at hid
          subst hid
          exact ⟨now, st.counter, by omega, rfl⟩
      · refine List.Nodup.append h.postedNodup (by simp) ?_
        intro id hid hid'
        simp only [List.mem_singleton] at hid'
        subst hid'
        obtain ⟨t, n, hn, hEq⟩ := h.postedGood _ hid
        have := (generateMessageId_inj hEq.symm).2
        omega
      · exact h.settledNodup
      · intro r hr
        have := h.settledLt r hr
        omega
      · intro e he r hr
        rcases List.mem_append.mp he with he | he
        · exact h.disj e he r hr
        · simp only [List.mem_singleton] at he
          subst he
          have := h.settledLt r hr
          simp only
          omega
    · simpa [hw] using h
  | response id =>
    simp only [bridgeStep]
    by_cases hc : id ≠ "" ∧ mapHas st.pending id = true
    · rw [if_pos hc]
      cases hget : mapGet st.pending id with
      | none => exact h
      | some v =>
        dsimp only
        have hmem : (id, v) ∈ st.pending := mapGet_mem hget
        have hvnot : ∀ r ∈ st.settled, v ≠ r.1 := fun r hr => h.disj (id, v) hmem r hr
        refine ⟨?_, ?_, h.postedGood, h.postedNodup, ?_, ?_, ?_⟩
        · intro e he
          exact h.pendingGood e (mem_mapDelete.mp he).1
        · refine List.Nodup.sublist ?_ h.pendingNodup
          exact List.Sublist.map _ (List.filter_sublist _)
        · simp only [List.map_append, List.map_cons, List.map_nil]
          refine List.Nodup.append h.settledNodup (by simp) ?_
          intro x hx hx'
          simp only [List.mem_singleton] at hx'
          subst hx'
          simp only [List.mem_map] at hx
          obtain ⟨r, hr, hrv⟩ := hx
          exact hvnot r hr hrv.symm
        · intro r hr
          rcases List.mem_append.mp hr with hr | hr
          · exact h.settledLt r hr
          · simp only [List.mem_singleton] at hr
            subst hr
            exact (h.pendingGood (id, v) hmem).2
        · intro e he r hr
          obtain ⟨hemem, hene⟩ := mem_mapDelete.mp he
          rcases List.mem_append.mp hr with hr | hr
          · exact h.disj e hemem r hr
          · simp only [List.mem_singleton] at hr
            subst hr
            intro hEq
            have : e = (id, v) :=
              List.inj_on_of_nodup_map h.pendingNodup hemem hmem (by simpa using hEq)
            rw [this] at hene
            exact hene rfl
    · simpa [hc] using h
  | timeoutFire id =>
    simp only [bridgeStep]
    by_cases hc : mapHas st.pending id = true
    · rw [if_pos hc]
      cases hget : mapGet st.pending id with
      | none => exact h
      | some v =>
        dsimp only
        have hmem : (id, v) ∈ st.pending := mapGet_mem hget
        have hvnot : ∀ r ∈ st.settled, v ≠ r.1 := fun r hr => h.disj (id, v) hmem r hr
        refine ⟨?_, ?_, h.postedGood, h.postedNodup, ?_, ?_, ?_⟩
        · intro e he
          exact h.pendingGood e (mem_mapDelete.mp he).1
        · refine List.Nodup.sublist ?_ h.pendingNodup
          exact List.Sublist.map _ (List.filter_sublist _)
        · simp only [List.map_append, List.map_cons, List.map_nil]
          refine List.Nodup.append h.settledNodup (by simp) ?_
          intro x hx hx'
          simp only [List.mem_singleton] at hx'
          subst hx'
          simp only [List.mem_map] at hx
          obtain ⟨r, hr, hrv⟩ := hx
          exact hvnot r hr hrv.symm
        · intro r hr
          rcases List.mem_append.mp hr with hr | hr
          · exact h.settledLt r hr
          · simp only [List.mem_singleton] at hr
            subst hr
            exact (h.pendingGood (id, v) hmem).2
        · intro e he r hr
          obtain ⟨hemem, hene⟩ := mem_mapDelete.mp he
          rcases List.mem_append.mp hr with hr | hr
          · exact h.disj e hemem r hr
          · simp only [List.mem_singleton] at hr
            subst hr
            intro hEq
            have : e = (id, v) :=
              List.inj_on_of_nodup_map h.pendingNodup hemem hmem (by simpa using hEq)
            rw [this] at hene
            exact hene rfl
    · simpa [hc] using h

theorem bridgeInv_run (st : BridgeSt) (es : List BEvent) (h : BridgeInv st) :
    BridgeInv (bridgeRun st es) := by
  induction es generalizing st with
  | nil => exact h
  | cons e es ih => exact ih _ (bridgeInv_step st e h)

theorem bridgeInv_init (names : List String) : BridgeInv (bridgeInit names) := by
  refine ⟨?_, ?_, ?_, ?_, ?_, ?_, ?_⟩ <;> simp [bridgeInit]

/-! The background executor and its response cache, from
src/core/workers/api.worker.js.  The module-level `apiCache` map is
threaded explicitly; `Date.now()` readings are explicit parameters
(`tCheck` for the freshness check at line 37, `tWrite` for the entry
written at line 94, with `tCheck ≤ tWrite` in any real run); the network
is an oracle (`NetOutcome`): either the fetched response with its parsed
body, or the thrown transport error caught at line 100.  Response bodies
are opaque to the executor and modelled as primitives; the `headers` echo
of the result object is not modelled. -/

/-- A cache entry `{timestamp, data}` (api.worker.js lines 93-96). -/
structure CacheEntry where
  timestamp : Int
  data : Prim
deriving DecidableEq, Repr

/-- The `apiCache` map: association list with JS `Map` semantics. -/
abbrev Cache := List (String × CacheEntry)

def cacheHas (c : Cache) (k : String) : Bool :=
  c.any fun e => e.1 = k

def cacheGet (c : Cache) (k : String) : Option CacheEntry :=
  (c.find? fun e => e.1 = k).map (·.2)

def cacheSet (c : Cache) (k : String) (v : CacheEntry) : Cache :=
  if cacheHas c k then c.map (fun e => if e.1 = k then (k, v) else e)
  else c ++ [(k, v)]

def cacheDelete (c : Cache) (k : String) : Cache :=
  c.filter fun e => e.1 ≠ k

/-- A request payload, after the destructuring defaults of
api.worker.js lines 23-30 (`method = "GET"`, `useCache = false`,
`cacheTTL = 300000`) have been applied. -/
structure WRequest where
  url : String
  method : String
  body : Option Prim
  useCache : Bool
  cacheTTL : Int
deriving DecidableEq, Repr

/-- A fetched network response with its parsed body. -/
structure NetResponse where
  ok : Bool
  status : Int
  statusText : String
  data : Prim
deriving DecidableEq, Repr

/-- Outcome of the `fetch` call: a response, or a thrown transport error
(network/CORS), caught at api.worker.js line 100. -/
inductive NetOutcome where
  | success (resp : NetResponse)
  | failure (errMsg : String)
deriving DecidableEq, Repr

/-- The result object `processRequest` resolves with; absent properties
are `none`. -/
structure ReqResult where
  success : Bool
  data : Option Prim
  fromCache : Option Bool
  status : Option Int
  statusText : Option String
  responseTime : Option Int
  error : Option String
  isNetworkError : Option Bool
deriving DecidableEq, Repr

/-- The cache-hit result `{success:true, data, fromCache:true}`
(api.worker.js lines 40-44). -/
def cacheHitResult (d : Prim) : ReqResult :=
  ⟨true, some d, some true, none, none, none, none, none⟩

/-- The network result object (api.worker.js lines 82-89). -/
def networkResult (resp : NetResponse) (respTime : Int) : ReqResult :=
  ⟨resp.ok, some resp.data, none, some resp.status, some resp.statusText,
    some respTime, none, none⟩

/-- The caught-transport-error result
`{success:false, error, isNetworkError:true}` (api.worker.js lines
102-106). -/
def networkErrorResult (msg : String) : ReqResult :=
  ⟨false, none, none, none, none, none, some msg, some true⟩

/-- The fetch-and-store tail of `processRequest` (api.worker.js lines
51-107): perform the network call; on a response, build the result and —
only when `response.ok && method === "GET" && useCache` — overwrite the
cache entry; on a thrown transport error return the structured error
result.  The third component records whether the network was contacted. -/
def fetchAndStore (cache : Cache) (tWrite : Int) (req : WRequest)
    (net : NetOutcome) (respTime : Int) : ReqResult × Cache × Bool :=
  match net with
  | .failure msg => (networkErrorResult msg, cache, true)
  | .success resp =>
    let cacheKey := req.method ++ ":" ++ req.url
    let cache' :=
      if resp.ok ∧ req.method = "GET" ∧ req.useCache then
        cacheSet cache cacheKey ⟨tWrite, resp.data⟩
      else cache
    (networkResult resp respTime, cache', true)

/-- `processRequest` (api.worker.js lines 22-108): for GET with
`useCache` and a present entry, a fresh hit (`tCheck - timestamp <
cacheTTL`) returns the cached data without touching the network; a stale
hit is evicted first; every other case goes to the network. -/
def processRequest (cache : Cache) (tCheck tWrite : Int) (req : WRequest)
    (net : NetOutcome) (respTime : Int) : ReqResult × Cache × Bool :=
  let cacheKey := req.method ++ ":" ++ req.url
  match (if req.method = "GET" ∧ req.useCache then cacheGet cache cacheKey else none) with
  | some cd =>
    if tCheck - cd.timestamp < req.cacheTTL then
      (cacheHitResult cd.data, cache, false)
    else
      fetchAndStore (cacheDelete cache cacheKey) tWrite req net respTime
  | none => fetchAndStore cache tWrite req net respTime

/-- Purge options `{url, pattern, olderThan}`; `pattern` is the regex
source string, tested through the oracle `rtest` (the compiled
`RegExp.test`).  A non-number `olderThan` (which the source's `typeof`
guard sends to the full-clear branch) is not modelled. -/
structure PurgeOptions where
  url : Option String
  pattern : Option String
  olderThan : Option Int
deriving DecidableEq, Repr

/-- JS truthiness of an optional string (absent and empty are falsy). -/
def strTruthy : Option String → Bool
  | some s => s != ""
  | none => false

/-- JS truthiness of an optional number (absent and 0 are falsy). -/
def intTruthy : Option Int → Bool
  | some n => n != 0
  | none => false

/-- `purgeCache` (api.worker.js lines 114-159): four branches tried in
order — truthy `url`, truthy `pattern`, truthy numeric `olderThan`, full
clear.  Returns the `purged` key list of the source together with the new
cache. -/
def purgeCache (cache : Cache) (now : Int) (rtest : String → String → Bool)
    (opts : PurgeOptions) : List String × Cache :=
  if strTruthy opts.url then
    let getKey := "GET:" ++ opts.url.getD ""
    ([getKey], cacheDelete cache getKey)
  else if strTruthy opts.pattern then
    let p := opts.pattern.getD ""
    ((cache.map (·.1)).filter (fun k => rtest p k),
      cache.filter (fun e => !(rtest p e.1)))
  else if intTruthy opts.olderThan then
    let threshold := now - opts.olderThan.getD 0
    ((cache.filter (fun e => e.2.timestamp < threshold)).map (·.1),
      cache.filter (fun e => !(decide (e.2.timestamp < threshold))))
  else
    (cache.map (·.1), [])

/-- `getCacheStats` (api.worker.js lines 165-174): size, key list and the
summed serialized entry sizes (`JSON.stringify(item).length`, supplied by
the oracle `sz`). -/
def getCacheStats (cache : Cache) (sz : CacheEntry → Nat) :
    Nat × List String × Nat :=
  (cache.length, cache.map (·.1), (cache.map (fun e => sz e.2)).sum)

/-- The payload of an inbound executor message, as each branch of the
listener interprets it. -/
inductive MsgPayload where
  | request (r : WRequest)
  | purge (o : PurgeOptions)
  | absent
deriving Repr

/-- An inbound message envelope `{id, action, payload}`; absent
properties are `none`. -/
structure InMessage where
  id : Option String
  action : Option String
  payload : MsgPayload

/-- The `result` of a response envelope, one constructor per listener
branch. -/
inductive WResult where
  | req (r : ReqResult)
  | purged (ks : List String)
  | stats (size : Nat) (keys : List String) (totalSize : Nat)
  | errorResult (success : Bool) (error : String)
deriving DecidableEq, Repr

/-- The posted response envelope `{id, result}` (api.worker.js lines
204-207). -/
structure OutMessage where
  id : Option String
  result : WResult
deriving DecidableEq, Repr

/-- Template-literal rendering of a possibly-absent string. -/
def showJs : Option String → String
  | some s => s
  | none => "undefined"

/-- The destructuring of a `request` payload of unexpected shape; the
claims never exercise this branch with a non-request payload. -/
def defaultWRequest : WRequest := ⟨"", "GET", none, false, 300000⟩

/-- The executor's message listener (api.worker.js lines 177-208):
switch on `action` over `request` / `purgeCache` / `getCacheStats`, with
`{success:false, error}` for anything else, and always post back
`{id, result}` with the request's id. -/
def handleMessage (cache : Cache) (tCheck tWrite now : Int) (net : NetOutcome)
    (respTime : Int) (rtest : String → String → Bool) (sz : CacheEntry → Nat)
    (msg : InMessage) : Cache × OutMessage :=
  if msg.action = some "request" then
    let req := match msg.payload with
      | .request r => r
      | _ => defaultWRequest
    let out := processRequest cache tCheck tWrite req net respTime
    (out.2.1, ⟨msg.id, .req out.1⟩)
  else if msg.action = some "purgeCache" then
    let opts := match msg.payload with
      | .purge o => o
      | _ => ⟨none, none, none⟩
    let out := purgeCache cache now rtest opts
    (out.2, ⟨msg.id, .purged out.1⟩)
  else if msg.action = some "getCacheStats" then
    let out := getCacheStats cache sz
    (cache, ⟨msg.id, .stats out.1 out.2.1 out.2.2⟩)
  else
    (cache, ⟨msg.id, .errorResult false ("Acción no soportada: " ++ showJs msg.action)⟩)

/-! The API service facade, from src/core/services/api.service.js
(`ApiServiceClass.request`, lines 71-140, and `_handleError`, lines
52-62).  The bridge call is an oracle: its promise either resolves with
the worker's result envelope or rejects (timeout, uninitialized worker).
The facade's `pendingRequests` set and the actions it dispatches to the
store are made explicit. -/

/-- Truthy-or on a possibly-absent primitive (the JS `||` as used for
defaulting). -/
def primOr (v : Option Prim) (d : Prim) : Prim :=
  match v with
  | some p => if p.truthy then p else d
  | none => d

/-- A thrown/caught JS error value as the facade builds them: a plain
object (or Error instance) with `message`, `status` and optionally
`data`. -/
structure JsError where
  message : Option Prim
  status : Option Prim
  data : Option PVal

/-- Actions the facade dispatches (the `actions.setLoading` /
`actions.setError` creators applied to the facade's payloads; the
`setError` payload `{message, code, timestamp}` is flattened). -/
inductive FAction where
  | setLoading (b : Bool)
  | setError (message : Prim) (code : Prim) (timestamp : Int)
deriving DecidableEq, Repr

/-- `_handleError` (api.service.js lines 52-62): dispatch a normalized
`setError` and re-throw the same error.  Returns the dispatched action
and the re-thrown error. -/
def handleError (e : JsError) (now : Int) : FAction × JsError :=
  (.setError (primOr e.message (.str "Error de comunicación con el servidor"))
    (primOr e.status (.str "NETWORK_ERROR")) now, e)

/-- JS `Set.add` / `Set.delete` / `Set.prototype.size` on an
insertion-ordered duplicate-free list. -/
def setAdd (s : List String) (x : String) : List String :=
  if x ∈ s then s else s ++ [x]

def setDelete (s : List String) (x : String) : List String :=
  s.filter (· ≠ x)

/-- The request identifier (api.service.js line 94). -/
def requestId (method url : String) (now : Nat) : String :=
  method ++ ":" ++ url ++ ":" ++ Nat.repr now

/-- Outcome of the awaited `sendToWorker` promise: the worker's result
envelope (the facade reads `success`, `status` and `data`), or a
rejection with an error message (timeout / worker not initialized). -/
inductive BridgeOutcome where
  | resolved (success : Bool) (status : Option Int) (data : PVal)
  | rejected (errMessage : String)

/-- What one `ApiServiceClass.request` call left behind: the
`pendingRequests` set, the actions dispatched to the store (in order) and
the call's own outcome (returned data or thrown error). -/
structure FacadeResult where
  pending : List String
  dispatched : List FAction
  outcome : Except JsError PVal

/-- `ApiServiceClass.request` (api.service.js lines 71-140), for a given
bridge outcome.  On the success path and on the non-success-response path
the tracking entry is removed and the loader cleared when the set
empties (lines 111-117, which run before the success check); when the
awaited bridge promise rejects, control jumps from line 103 straight to
the catch block at line 133, skipping lines 111-117.  URL/query building
is orthogonal to the claims and is summarized by the `url` argument. -/
def ApiServiceClass.request (pending0 : List String) (method url : String)
    (now : Nat) (showLoader : Bool) (outcome : BridgeOutcome) : FacadeResult :=
  let rid := requestId method url now
  let pending1 := setAdd pending0 rid
  let acts1 : List FAction := if showLoader then [.setLoading true] else []
  match outcome with
  | .rejected m =>
    let caught : JsError := ⟨some (.str m), none, none⟩
    let e2 : JsError :=
      ⟨some (primOr caught.message (.str "Error de conexión")),
        some (.str "NETWORK_ERROR"), none⟩
    let h := handleError e2 (now : Int)
    ⟨pending1, acts1 ++ [h.1], .error h.2⟩
  | .resolved success status data =>
    let pending2 := setDelete pending1 rid
    let acts2 := acts1 ++
      (if showLoader ∧ pending2.length = 0 then [.setLoading false] else [])
    if success then
      ⟨pending2, acts2, .ok data⟩
    else
      let e1 : JsError :=
        ⟨some (primOr (data.getField "error") (.str "Error en la petición")),
          status.map (fun s => .num s), some data⟩
      let h1 := handleError e1 (now : Int)
      let e2 : JsError :=
        ⟨some (primOr h1.2.message (.str "Error de conexión")),
          some (.str "NETWORK_ERROR"), none⟩
      let h2 := handleError e2 (now : Int)
      ⟨pending2, acts2 ++ [h1.1, h2.1], .error h2.2⟩

/-- The store's loading flag after a sequence of facade dispatches
(`loadingReducer` stores the `setLoading` payload). -/
def loadingAfter (init : Bool) (acts : List FAction) : Bool :=
  acts.foldl (fun b a => match a with
    | .setLoading v => v
    | _ => b) init

/-! Shared helper lemmas and concrete fixtures for the claim theorems. -/

theorem filter_eq_singleton_of_nodup {α : Type} [DecidableEq α] {l : List α} {a : α}
    (hnd : l.Nodup) (ha : a ∈ l) : l.filter (fun x => x = a) = [a] := by
  induction l with
  | nil => cases ha
  | cons b l ih =>
    have hbn : b ∉ l := (List.nodup_cons.mp hnd).1
    have hln : l.Nodup := (List.nodup_cons.mp hnd).2
    by_cases hba : b = a
    · have hfl : l.filter (fun x => x = a) = [] := by
        rw [List.filter_eq_nil_iff]
        intro x hx
        simp only [decide_eq_true_eq]
        intro hEq
        have hal : a ∈ l := hEq ▸ hx
        rw [← hba] at hal
        exact hbn hal
      simp [List.filter_cons, hba, hfl]
    · have hal : a ∈ l := by
        rcases List.mem_cons.mp ha with h | h
        · exact absurd h.symm hba
        · exact h
      simp [List.filter_cons, hba, ih hln hal]

/-- The always-empty object (for fixture incidents). -/
def emptyObj : Obj := fun _ => none

/-- A fixture incident with just a numeric id. -/
def objId (n : Int) : Obj :=
  fun k => if k = "id" then some (.num n) else none

/-- A fixture state tree. -/
def appState0 : AppState :=
  ⟨.prim (.bool false), [], none, [], .prim .null, emptyObj⟩

/-! Claim C7. -/

/-- C7: for every caller and every action value missing its `type`
property or carrying an empty `type`, `dispatch(action)` throws the
validation error synchronously: the model returns `Except.error` before
any middleware is started (no join is created), any reducer runs, or the
store is touched — an error return leaves the caller's `StoreSys`
exactly as it was. -/
theorem C7_dispatch_validates_type (sys : StoreSys) (a : Action) (now : Int)
    (h : a.type = none ∨ a.type = some "") :
    dispatchSync sys a now = .error dispatchValidationMsg := by
  rcases h with h | h <;> simp [dispatchSync, typeTruthy, h]

theorem C7_dispatch_validates_type_witness :
    ((Action.mk none .undefined).type = none ∨ (Action.mk none .undefined).type = some "")
    ∧ dispatchSync ⟨⟨appState0, [], 0, 0⟩, [], []⟩ ⟨none, .undefined⟩ 0
        = .error dispatchValidationMsg :=
  ⟨Or.inl rfl,
    C7_dispatch_validates_type ⟨⟨appState0, [], 0, 0⟩, [], []⟩ ⟨none, .undefined⟩ 0 (Or.inl rfl)⟩

/-! Reduction lemmas: each reducer applied to a specific action creator
(the switch dispatch spelled out). -/

theorem incidentsReducer_update (state : List Obj) (p : Obj) :
    incidentsReducer state (actions.updateIncident (.obj p))
      = state.map (fun inc => if inc "id" = p "id" then Obj.merge inc p else inc) := by
  simp [incidentsReducer, actions.updateIncident, createAction, PVal.getField, PVal.asObj,
    ACTION_TYPES.INCIDENTS.UPDATE_INCIDENT, ACTION_TYPES.INCIDENTS.SET_INCIDENTS,
    ACTION_TYPES.INCIDENTS.ADD_INCIDENT, ACTION_TYPES.INCIDENTS.DELETE_INCIDENT]

theorem currentIncidentReducer_update (cur : Option Obj) (p : Obj) :
    currentIncidentReducer cur (actions.updateIncident (.obj p))
      = match cur with
        | some st => if st "id" = p "id" then some (Obj.merge st p) else some st
        | none => none := by
  simp [currentIncidentReducer, actions.updateIncident, createAction, PVal.getField,
    PVal.asObj, ACTION_TYPES.INCIDENTS.SET_CURRENT_INCIDENT,
    ACTION_TYPES.INCIDENTS.CLEAR_CURRENT_INCIDENT, ACTION_TYPES.INCIDENTS.UPDATE_INCIDENT]

theorem incidentsReducer_delete (state : List Obj) (pv : PVal) :
    incidentsReducer state (actions.deleteIncident pv)
      = state.filter (fun inc => !(jsStrictEq (fieldVal (inc "id")) pv)) := by
  simp [incidentsReducer, actions.deleteIncident, createAction,
    ACTION_TYPES.INCIDENTS.UPDATE_INCIDENT, ACTION_TYPES.INCIDENTS.SET_INCIDENTS,
    ACTION_TYPES.INCIDENTS.ADD_INCIDENT, ACTION_TYPES.INCIDENTS.DELETE_INCIDENT]

theorem currentIncidentReducer_delete (cur : Option Obj) (pv : PVal) :
    currentIncidentReducer cur (actions.deleteIncident pv)
      = match cur with
        | some st => if jsStrictEq (fieldVal (st "id")) pv then none else some st
        | none => none := by
  simp [currentIncidentReducer, actions.deleteIncident, createAction,
    ACTION_TYPES.INCIDENTS.SET_CURRENT_INCIDENT,
    ACTION_TYPES.INCIDENTS.CLEAR_CURRENT_INCIDENT, ACTION_TYPES.INCIDENTS.UPDATE_INCIDENT,
    ACTION_TYPES.INCIDENTS.DELETE_INCIDENT]

/-! Claim C8. -/

theorem merge_idem (o p : Obj) : Obj.merge (Obj.merge o p) p = Obj.merge o p := by
  funext k
  simp only [Obj.merge]
  cases p k <;> rfl

theorem merge_id_of_eq {o p : Obj} (h : o "id" = p "id") :
    (Obj.merge o p) "id" = p "id" := by
  simp only [Obj.merge]
  cases hp : p "id" with
  | none => rw [h, hp]
  | some v => rfl

/-- C8: the update applied by `updateIncident(id, patch)` is idempotent —
applying the reducer twice with the same payload yields the same
incidents slice (and the same currentIncident slice) as applying it once
— and every incident whose `id` does not match the payload's is left in
place unchanged. -/
theorem C8_updateIncident_idempotent (state : List Obj) (cur : Option Obj) (p : Obj) :
    (incidentsReducer (incidentsReducer state (actions.updateIncident (.obj p)))
        (actions.updateIncident (.obj p))
      = incidentsReducer state (actions.updateIncident (.obj p)))
    ∧ (currentIncidentReducer (currentIncidentReducer cur (actions.updateIncident (.obj p)))
        (actions.updateIncident (.obj p))
      = currentIncidentReducer cur (actions.updateIncident (.obj p)))
    ∧ (∀ (i : Nat) (inc : Obj), state[i]? = some inc → inc "id" ≠ p "id" →
        (incidentsReducer state (actions.updateIncident (.obj p)))[i]? = some inc) := by
  refine ⟨?_, ?_, ?_⟩
  · simp only [incidentsReducer_update, List.map_map]
    refine List.map_congr_left ?_
    intro inc _
    simp only [Function.comp_apply]
    by_cases h : inc "id" = p "id"
    · rw [if_pos h, if_pos (merge_id_of_eq h), merge_idem]
    · rw [if_neg h, if_neg h]
  · cases cur with
    | none => simp [currentIncidentReducer_update]
    | some st =>
      by_cases h : st "id" = p "id"
      · simp only [currentIncidentReducer_update, if_pos h]
        rw [if_pos (merge_id_of_eq h), merge_idem]
      · simp only [currentIncidentReducer_update, if_neg h]
  · intro i inc hi hne
    rw [incidentsReducer_update, List.getElem?_map, hi]
    simp only [Option.map_some']
    rw [if_neg hne]

/-- A fixture update payload: id 1 with a new status. -/
def patch0 : Obj :=
  fun k => if k = "id" then some (.num 1)
    else if k = "status" then some (.str "resuelto") else none

theorem C8_updateIncident_idempotent_witness :
    ((objId 2) "id" ≠ patch0 "id")
    ∧ (incidentsReducer (incidentsReducer [objId 1, objId 2]
          (actions.updateIncident (.obj patch0))) (actions.updateIncident (.obj patch0))
        = incidentsReducer [objId 1, objId 2] (actions.updateIncident (.obj patch0)))
    ∧ ((incidentsReducer [objId 1, objId 2] (actions.updateIncident (.obj patch0)))[1]?
        = some (objId 2)) := by
  refine ⟨by decide, (C8_updateIncident_idempotent [objId 1, objId 2] none patch0).1, ?_⟩
  exact (C8_updateIncident_idempotent [objId 1, objId 2] none patch0).2.2 1 (objId 2)
    rfl (by decide)

/-! Claim C10. -/

/-- C10: the reducer for `deleteIncident(id)` clears `currentIncident`
exactly when it is non-null and its `id` strictly-equals the deleted id,
leaves it unchanged otherwise, and removes every matching incident from
the incidents slice — so after the dispatch the selected incident never
refers to the deleted id. -/
theorem C10_deleteIncident_clears_current (s : AppState) (pv : PVal) :
    ((s.currentIncident = none →
        (createReducer s (actions.deleteIncident pv)).currentIncident = none)
    ∧ (∀ st, s.currentIncident = some st →
        (jsStrictEq (fieldVal (st "id")) pv = true →
          (createReducer s (actions.deleteIncident pv)).currentIncident = none)
        ∧ (jsStrictEq (fieldVal (st "id")) pv = false →
          (createReducer s (actions.deleteIncident pv)).currentIncident = some st)))
    ∧ (∀ inc ∈ (createReducer s (actions.deleteIncident pv)).incidents,
        jsStrictEq (fieldVal (inc "id")) pv = false)
    ∧ ((createReducer s (actions.deleteIncident pv)).currentIncident = none ∨
        ∃ st, (createReducer s (actions.deleteIncident pv)).currentIncident = some st
          ∧ jsStrictEq (fieldVal (st "id")) pv = false) := by
  have hcur : (createReducer s (actions.deleteIncident pv)).currentIncident
      = currentIncidentReducer s.currentIncident (actions.deleteIncident pv) := rfl
  have hinc : (createReducer s (actions.deleteIncident pv)).incidents
      = incidentsReducer s.incidents (actions.deleteIncident pv) := rfl
  refine ⟨⟨?_, ?_⟩, ?_, ?_⟩
  · intro h
    rw [hcur, h, currentIncidentReducer_delete]
  · intro st hst
    rw [hcur, hst]
    constructor
    · intro hEq
      simp [currentIncidentReducer_delete, hEq]
    · intro hne
      simp [currentIncidentReducer_delete, hne]
  · intro inc hmem
    rw [hinc, incidentsReducer_delete] at hmem
    have := (List.mem_filter.mp hmem).2
    simpa using this
  · rw [hcur]
    cases hst : s.currentIncident with
    | none =>
      left
      rw [currentIncidentReducer_delete]
    | some st =>
      by_cases hEq : jsStrictEq (fieldVal (st "id")) pv = true
      · left
        simp [currentIncidentReducer_delete, hEq]
      · right
        refine ⟨st, ?_, by simpa using hEq⟩
        simp only [Bool.not_eq_true] at hEq
        simp [currentIncidentReducer_delete, hEq]

theorem C10_deleteIncident_clears_current_witness :
    ((⟨.prim (.bool false), [objId 1], some (objId 1), [], .prim .null, emptyObj⟩ :
        AppState).currentIncident = some (objId 1))
    ∧ (createReducer
        ⟨.prim (.bool false), [objId 1], some (objId 1), [], .prim .null, emptyObj⟩
        (actions.deleteIncident (.prim (.num 1)))).currentIncident = none := by
  refine ⟨rfl, ?_⟩
  exact ((C10_deleteIncident_clears_current
    ⟨.prim (.bool false), [objId 1], some (objId 1), [], .prim .null, emptyObj⟩
    (.prim (.num 1))).1.2 (objId 1) rfl).1 (by decide)

/-! Claim C9. -/

/-- C9: for every inbound executor message whose `action` is none of
`request`, `purgeCache`, `getCacheStats`, the listener still posts back a
response envelope carrying the request's id, whose result is
`{success:false, error}` with the unsupported-action message, and leaves
the cache untouched. -/
theorem C9_unsupported_action_answered (cache : Cache) (tCheck tWrite now : Int)
    (net : NetOutcome) (respTime : Int) (rtest : String → String → Bool)
    (sz : CacheEntry → Nat) (msg : InMessage)
    (h1 : msg.action ≠ some "request") (h2 : msg.action ≠ some "purgeCache")
    (h3 : msg.action ≠ some "getCacheStats") :
    handleMessage cache tCheck tWrite now net respTime rtest sz msg
      = (cache, ⟨msg.id, .errorResult false ("Acción no soportada: " ++ showJs msg.action)⟩) := by
  simp [handleMessage, h1, h2, h3]

theorem C9_unsupported_action_answered_witness :
    ((some "destroyCache" : Option String) ≠ some "request")
    ∧ handleMessage [] 0 0 0 (.failure "down") 0 (fun _ _ => false) (fun _ => 0)
        ⟨some "m7", some "destroyCache", .absent⟩
      = ([], ⟨some "m7", .errorResult false "Acción no soportada: destroyCache"⟩) := by
  refine ⟨by decide, ?_⟩
  exact C9_unsupported_action_answered [] 0 0 0 (.failure "down") 0 (fun _ _ => false)
    (fun _ => 0) ⟨some "m7", some "destroyCache", .absent⟩
    (by decide) (by decide) (by decide)

/-! Claim C5. -/

/-- A generated correlation id never starts with a worker name followed
by an underscore, for any worker name not itself of the form the id
scheme produces: in particular never for the application's worker name
"api", since every generated id starts with the four characters of
msg-underscore. -/
theorem generated_id_not_api_owned (t n : Nat) :
    jsStartsWith (generateMessageId t n) ("api" ++ "_") = false := by
  have hdata : (generateMessageId t n).data
      = 'm' :: 's' :: 'g' :: '_' :: ((Nat.repr t).data ++ '_' :: (Nat.repr n).data) := by
    simp [generateMessageId, String.data_append]
  simp [jsStartsWith, hdata, charsLeads]

/-- The bridge state at the failing input: the "api" worker is
registered, one request is in flight (its entry registered under the id
generated at time 1000 with counter 0), the counter has advanced to 1. -/
def c5bridge : BridgeSt :=
  ⟨["api"], 1, [(generateMessageId 1000 0, 0)], [generateMessageId 1000 0], []⟩

/-- C5, evaluated at the failing input: `terminateWorker("api")` discards
the registry entry, but its pending-cleanup loop matches ids against the
`api_` name prefix while every id `generateMessageId` produces starts
with `msg_` — so the pending entry of the in-flight request survives the
termination, contradicting the claim (and the source's own comment,
which says the loop cleans the pending callbacks of this worker). -/
theorem C5_terminateWorker_leaves_pending :
    (terminateWorker c5bridge "api").workers = []
    ∧ (terminateWorker c5bridge "api").pending = c5bridge.pending
    ∧ c5bridge.pending ≠ [] := by
  refine ⟨by decide, by decide, by decide⟩

/-! Claim C6. -/

/-- The keys a purge actually evicted: those present before and absent
afterwards. -/
def evictedKeys (before after : Cache) : List String :=
  (before.map (·.1)).filter (fun k => !(cacheHas after k))

/-- C6 counterexample: on an empty cache, `purgeCache({url:"/x"})`
returns `["GET:/x"]` although nothing was present, hence nothing was
evicted — the returned value is not the list of keys actually evicted. -/
theorem C6_counterexample :
    (purgeCache [] 0 (fun _ _ => false) ⟨some "/x", none, none⟩).1
      ≠ evictedKeys []
          (purgeCache [] 0 (fun _ _ => false) ⟨some "/x", none, none⟩).2 := by
  decide

theorem cacheHas_iff {c : Cache} {k : String} :
    cacheHas c k = true ↔ ∃ e ∈ c, e.1 = k := by
  simp [cacheHas]

theorem cacheHas_delete_iff {c : Cache} {k k' : String} :
    cacheHas (cacheDelete c k) k' = true ↔ (cacheHas c k' = true ∧ k' ≠ k) := by
  constructor
  · intro h
    obtain ⟨e, he, hek⟩ := cacheHas_iff.mp h
    have hf := List.mem_filter.mp he
    refine ⟨cacheHas_iff.mpr ⟨e, hf.1, hek⟩, ?_⟩
    have h2 := hf.2
    simp only [decide_eq_true_eq] at h2
    rw [← hek]
    exact h2
  · rintro ⟨h1, h2⟩
    obtain ⟨e, he, hek⟩ := cacheHas_iff.mp h1
    refine cacheHas_iff.mpr ⟨e, List.mem_filter.mpr ⟨he, ?_⟩, hek⟩
    simp only [decide_eq_true_eq]
    rw [hek]
    exact h2

theorem cacheGet_delete_self (c : Cache) (k : String) :
    cacheGet (cacheDelete c k) k = none := by
  simp only [cacheGet, Option.map_eq_none', List.find?_eq_none]
  intro e he
  simp only [cacheDelete, List.mem_filter, decide_eq_true_eq] at he
  simp only [decide_eq_true_eq]
  exact he.2

theorem cacheGet_delete_other (c : Cache) (k k' : String) (h : k' ≠ k) :
    cacheGet (cacheDelete c k) k' = cacheGet c k' := by
  simp only [cacheGet, cacheDelete]
  congr 1
  induction c with
  | nil => rfl
  | cons e c ih =>
    by_cases hek' : e.1 = k'
    · have hq : e.1 ≠ k := by rw [hek']; exact h
      rw [List.filter_cons_of_pos (by simpa using hq)]
      rw [List.find?_cons_of_pos _ (by simpa using hek'),
        List.find?_cons_of_pos _ (by simpa using hek')]
    · by_cases hq : e.1 ≠ k
      · rw [List.filter_cons_of_pos (by simpa using hq)]
        rw [List.find?_cons_of_neg _ (by simpa using hek'),
          List.find?_cons_of_neg _ (by simpa using hek')]
        exact ih
      · rw [List.filter_cons_of_neg (by simpa using hq)]
        rw [List.find?_cons_of_neg _ (by simpa using hek')]
        exact ih

theorem mem_keys_has {cache : Cache} {k : String}
    (h : k ∈ cache.map (·.1)) : cacheHas cache k = true := by
  simp only [List.mem_map] at h
  obtain ⟨e, he, hek⟩ := h
  exact cacheHas_iff.mpr ⟨e, he, hek⟩

/-- C6, amended: the four purge modes are mutually exclusive and tried in
priority order url > pattern > olderThan > full clear; `purgeCache({url})`
removes only the `GET:<url>` entry, leaving every other entry untouched;
no options empties the cache and returns every previously-present key;
the pattern, olderThan and full-clear modes return exactly the evicted
keys, while the url mode always returns the singleton `["GET:<url>"]` —
which is the evicted list when the entry was present, but is returned
even when nothing was evicted. -/
theorem C6_purgeCache_modes (cache : Cache) (now : Int)
    (rtest : String → String → Bool) :
    (∀ u p o, u ≠ "" →
      purgeCache cache now rtest ⟨some u, p, o⟩
        = (["GET:" ++ u], cacheDelete cache ("GET:" ++ u)))
    ∧ (∀ u, u ≠ "" →
        cacheGet (purgeCache cache now rtest ⟨some u, none, none⟩).2 ("GET:" ++ u) = none
        ∧ ∀ k, k ≠ "GET:" ++ u →
            cacheGet (purgeCache cache now rtest ⟨some u, none, none⟩).2 k = cacheGet cache k)
    ∧ (∀ u, u ≠ "" → (cache.map (·.1)).Nodup →
        (cacheHas cache ("GET:" ++ u) = true →
          evictedKeys cache (purgeCache cache now rtest ⟨some u, none, none⟩).2
            = ["GET:" ++ u])
        ∧ (cacheHas cache ("GET:" ++ u) = false →
          evictedKeys cache (purgeCache cache now rtest ⟨some u, none, none⟩).2 = []))
    ∧ (∀ pat o, pat ≠ "" →
        purgeCache cache now rtest ⟨none, some pat, o⟩
          = ((cache.map (·.1)).filter (fun k => rtest pat k),
              cache.filter (fun e => !(rtest pat e.1)))
        ∧ evictedKeys cache (purgeCache cache now rtest ⟨none, some pat, o⟩).2
            = (purgeCache cache now rtest ⟨none, some pat, o⟩).1)
    ∧ (∀ x, x ≠ 0 → (cache.map (·.1)).Nodup →
        evictedKeys cache (purgeCache cache now rtest ⟨none, none, some x⟩).2
          = (purgeCache cache now rtest ⟨none, none, some x⟩).1)
    ∧ (purgeCache cache now rtest ⟨none, none, none⟩ = (cache.map (·.1), [])
        ∧ evictedKeys cache [] = cache.map (·.1)) := by
  have hurl : ∀ u p o, u ≠ "" →
      purgeCache cache now rtest ⟨some u, p, o⟩
        = (["GET:" ++ u], cacheDelete cache ("GET:" ++ u)) := by
    intro u p o hu
    simp [purgeCache, strTruthy, hu]
  refine ⟨hurl, ?_, ?_, ?_, ?_, ?_⟩
  · intro u hu
    rw [hurl u none none hu]
    exact ⟨cacheGet_delete_self cache _, fun k hk => cacheGet_delete_other cache _ k hk⟩
  · intro u hu hnd
    rw [hurl u none none hu]
    have hpt : evictedKeys cache (cacheDelete cache ("GET:" ++ u))
        = (cache.map (·.1)).filter (fun k => k = "GET:" ++ u) := by
      refine List.filter_congr ?_
      intro k hk
      have hck : cacheHas cache k = true := mem_keys_has hk
      by_cases hEq : k = "GET:" ++ u
      · have hfalse : cacheHas (cacheDelete cache ("GET:" ++ u)) k = false := by
          rw [Bool.eq_false_iff]
          intro hh
          exact (cacheHas_delete_iff.mp hh).2 hEq
        subst hEq
        simp [hfalse]
      · have htrue : cacheHas (cacheDelete cache ("GET:" ++ u)) k = true :=
          cacheHas_delete_iff.mpr ⟨hck, hEq⟩
        simp [htrue, hEq]
    constructor
    · intro hpresent
      rw [hpt]
      refine filter_eq_singleton_of_nodup hnd ?_
      obtain ⟨e, he, hek⟩ := cacheHas_iff.mp hpresent
      exact List.mem_map.mpr ⟨e, he, hek⟩
    · intro habsent
      rw [hpt, List.filter_eq_nil_iff]
      intro k hk
      simp only [decide_eq_true_eq]
      intro hEq
      rw [hEq] at hk
      rw [mem_keys_has hk] at habsent
      cases habsent
  · intro pat o hp
    have hpm : purgeCache cache now rtest ⟨none, some pat, o⟩
        = ((cache.map (·.1)).filter (fun k => rtest pat k),
            cache.filter (fun e => !(rtest pat e.1))) := by
      simp [purgeCache, strTruthy, hp]
    refine ⟨hpm, ?_⟩
    rw [hpm]
    refine List.filter_congr ?_
    intro k hk
    have hck : cacheHas cache k = true := mem_keys_has hk
    by_cases hr : rtest pat k = true
    · have hfalse : cacheHas (cache.filter (fun e => !(rtest pat e.1))) k = false := by
        rw [Bool.eq_false_iff]
        intro hh
        obtain ⟨e, he, hek⟩ := cacheHas_iff.mp hh
        have := (List.mem_filter.mp he).2
        rw [hek, hr] at this
        cases this
      simp [hfalse, hr]
    · obtain ⟨e, he, hek⟩ := cacheHas_iff.mp hck
      have htrue : cacheHas (cache.filter (fun e => !(rtest pat e.1))) k = true := by
        refine cacheHas_iff.mpr ⟨e, List.mem_filter.mpr ⟨he, ?_⟩, hek⟩
        rw [hek]
        simp only [Bool.not_eq_true] at hr
        simp [hr]
      simp only [Bool.not_eq_true] at hr
      simp [htrue, hr]
  · intro x hx hnd
    have hom : purgeCache cache now rtest ⟨none, none, some x⟩
        = ((cache.filter (fun e => e.2.timestamp < now - x)).map (·.1),
            cache.filter (fun e => !(decide (e.2.timestamp < now - x)))) := by
      simp [purgeCache, strTruthy, intTruthy, hx]
    rw [hom]
    show List.filter _ (cache.map (·.1)) = _
    rw [List.filter_map]
    congr 1
    refine List.filter_congr ?_
    intro e he
    simp only [Function.comp_apply]
    by_cases ht : e.2.timestamp < now - x
    · have hfalse :
          cacheHas (cache.filter (fun e => !(decide (e.2.timestamp < now - x)))) e.1
            = false := by
        rw [Bool.eq_false_iff]
        intro hh
        obtain ⟨e', he', hek⟩ := cacheHas_iff.mp hh
        have hmemf := List.mem_filter.mp he'
        have : e' = e := List.inj_on_of_nodup_map hnd hmemf.1 he hek
        rw [this] at hmemf
        simp only [Bool.not_eq_true', decide_eq_false_iff_not] at hmemf
        exact hmemf.2 ht
      simp [hfalse, ht]
    · have htrue :
          cacheHas (cache.filter (fun e => !(decide (e.2.timestamp < now - x)))) e.1
            = true := by
        refine cacheHas_iff.mpr ⟨e, List.mem_filter.mpr ⟨he, ?_⟩, rfl⟩
        simp [ht]
      simp [htrue, ht]
  · constructor
    · simp [purgeCache, strTruthy, intTruthy]
    · simp [evictedKeys, cacheHas]

theorem C6_purgeCache_modes_witness :
    ("GET:/a" ∈ ([("GET:/a", (⟨0, .null⟩ : CacheEntry)), ("GET:/b", ⟨0, .null⟩)] :
        Cache).map (·.1))
    ∧ evictedKeys [("GET:/a", ⟨0, .null⟩), ("GET:/b", ⟨0, .null⟩)]
        (purgeCache [("GET:/a", ⟨0, .null⟩), ("GET:/b", ⟨0, .null⟩)] 0
          (fun _ _ => false) ⟨some "/a", none, none⟩).2 = ["GET:/a"]
    ∧ cacheGet (purgeCache [("GET:/a", ⟨0, .null⟩), ("GET:/b", ⟨0, .null⟩)] 0
          (fun _ _ => false) ⟨some "/a", none, none⟩).2 "GET:/b"
        = cacheGet [("GET:/a", ⟨0, .null⟩), ("GET:/b", ⟨0, .null⟩)] "GET:/b" := by
  refine ⟨by decide, ?_, ?_⟩
  · exact ((C6_purgeCache_modes [("GET:/a", ⟨0, .null⟩), ("GET:/b", ⟨0, .null⟩)] 0
      (fun _ _ => false)).2.2.1 "/a" (by decide) (by decide)).1 (by decide)
  · exact ((C6_purgeCache_modes [("GET:/a", ⟨0, .null⟩), ("GET:/b", ⟨0, .null⟩)] 0
      (fun _ _ => false)).2.1 "/a" (by decide)).2 "GET:/b" (by decide)

/-! Claim C3. -/

theorem find_set_map {k : String} {v : CacheEntry} :
    ∀ c : Cache, cacheHas c k = true →
      cacheGet (c.map (fun e => if e.1 = k then (k, v) else e)) k = some v := by
  intro c
  induction c with
  | nil => intro h; simp [cacheHas] at h
  | cons e c ih =>
    intro h
    by_cases he : e.1 = k
    · simp only [List.map_cons, if_pos he, cacheGet]
      rw [List.find?_cons_of_pos _ (by simp)]
      simp
    · simp only [List.map_cons, if_neg he, cacheGet]
      rw [List.find?_cons_of_neg _ (by simpa using he)]
      have h' : cacheHas c k = true := by
        simp only [cacheHas, List.any_cons, Bool.or_eq_true, decide_eq_true_eq] at h
        rcases h with h | h
        · exact absurd h he
        · exact h
      exact ih h'

theorem find_append_fresh {k : String} {v : CacheEntry} :
    ∀ c : Cache, cacheHas c k = false →
      cacheGet (c ++ [(k, v)]) k = some v := by
  intro c
  induction c with
  | nil => intro _; simp [cacheGet]
  | cons e c ih =>
    intro h
    simp only [cacheHas, List.any_cons, Bool.or_eq_false_iff] at h
    simp only [List.cons_append, cacheGet]
    rw [List.find?_cons_of_neg _ (by simpa using h.1)]
    exact ih (by simpa [cacheHas] using h.2)

theorem cacheGet_set_self (c : Cache) (k : String) (v : CacheEntry) :
    cacheGet (cacheSet c k v) k = some v := by
  by_cases h : cacheHas c k = true
  · simp only [cacheSet, h, if_true]
    exact find_set_map c h
  · have hf : cacheHas c k = false := Bool.eq_false_iff.mpr h
    simp only [cacheSet, hf, Bool.false_eq_true, if_false]
    exact find_append_fresh c hf

/-- C3: GET-with-cache semantics of `processRequest` — a hit younger than
`cacheTTL` answers from the cache with `fromCache=true` and no network
I/O and no cache change; a stale hit is evicted before the network call;
a miss followed by an ok response (re)writes the entry under
`GET:<url>`; hence two identical GET+useCache requests back-to-back
within the TTL perform exactly one network call, the second answered
from the cache written by the first. -/
theorem C3_get_cache_semantics (cache : Cache) (url : String) (ttl : Int)
    (tC tW : Int) (net : NetOutcome) (rt : Int) :
    (∀ cd : CacheEntry, cacheGet cache ("GET:" ++ url) = some cd →
      tC - cd.timestamp < ttl →
      processRequest cache tC tW ⟨url, "GET", none, true, ttl⟩ net rt
        = (cacheHitResult cd.data, cache, false))
    ∧ (∀ cd : CacheEntry, cacheGet cache ("GET:" ++ url) = some cd →
        ¬(tC - cd.timestamp < ttl) →
        processRequest cache tC tW ⟨url, "GET", none, true, ttl⟩ net rt
          = fetchAndStore (cacheDelete cache ("GET:" ++ url)) tW
              ⟨url, "GET", none, true, ttl⟩ net rt
        ∧ (processRequest cache tC tW ⟨url, "GET", none, true, ttl⟩ net rt).2.2 = true)
    ∧ (∀ resp : NetResponse, cacheGet cache ("GET:" ++ url) = none →
        net = .success resp → resp.ok = true →
        processRequest cache tC tW ⟨url, "GET", none, true, ttl⟩ net rt
          = (networkResult resp rt,
              cacheSet cache ("GET:" ++ url) ⟨tW, resp.data⟩, true)
        ∧ cacheGet (cacheSet cache ("GET:" ++ url) ⟨tW, resp.data⟩) ("GET:" ++ url)
            = some ⟨tW, resp.data⟩)
    ∧ (∀ (resp : NetResponse) (tC2 tW2 : Int) (net2 : NetOutcome) (rt2 : Int),
        cacheGet cache ("GET:" ++ url) = none → resp.ok = true →
        tC2 - tW < ttl →
        (processRequest cache tC tW ⟨url, "GET", none, true, ttl⟩ (.success resp) rt).2.2
          = true
        ∧ processRequest
            (processRequest cache tC tW ⟨url, "GET", none, true, ttl⟩ (.success resp) rt).2.1
            tC2 tW2 ⟨url, "GET", none, true, ttl⟩ net2 rt2
          = (cacheHitResult resp.data,
              (processRequest cache tC tW ⟨url, "GET", none, true, ttl⟩
                (.success resp) rt).2.1, false)) := by
  have hhit : ∀ (c : Cache) (tC' tW' : Int) (net' : NetOutcome) (rt' : Int)
      (cd : CacheEntry), cacheGet c ("GET:" ++ url) = some cd →
      tC' - cd.timestamp < ttl →
      processRequest c tC' tW' ⟨url, "GET", none, true, ttl⟩ net' rt'
        = (cacheHitResult cd.data, c, false) := by
    intro c tC' tW' net' rt' cd hget hfresh
    simp [processRequest, hget, hfresh]
  have hmiss : ∀ resp : NetResponse, cacheGet cache ("GET:" ++ url) = none →
      resp.ok = true →
      processRequest cache tC tW ⟨url, "GET", none, true, ttl⟩ (.success resp) rt
        = (networkResult resp rt,
            cacheSet cache ("GET:" ++ url) ⟨tW, resp.data⟩, true) := by
    intro resp hget hok
    simp [processRequest, hget, fetchAndStore, hok]
  refine ⟨?_, ?_, ?_, ?_⟩
  · intro cd hget hfresh
    exact hhit cache tC tW net rt cd hget hfresh
  · intro cd hget hstale
    have : processRequest cache tC tW ⟨url, "GET", none, true, ttl⟩ net rt
        = fetchAndStore (cacheDelete cache ("GET:" ++ url)) tW
            ⟨url, "GET", none, true, ttl⟩ net rt := by
      simp [processRequest, hget, hstale]
    refine ⟨this, ?_⟩
    rw [this]
    cases net with
    | success resp => simp [fetchAndStore]
    | failure msg => simp [fetchAndStore]
  · intro resp hget hnet hok
    subst hnet
    exact ⟨hmiss resp hget hok, cacheGet_set_self cache _ _⟩
  · intro resp tC2 tW2 net2 rt2 hget hok hfresh2
    have h1 := hmiss resp hget hok
    constructor
    · rw [h1]
    · rw [h1]
      exact hhit (cacheSet cache ("GET:" ++ url) ⟨tW, resp.data⟩) tC2 tW2 net2 rt2
        ⟨tW, resp.data⟩ (cacheGet_set_self cache _ _) hfresh2

theorem C3_get_cache_semantics_witness :
    (cacheGet [] ("GET:" ++ "/incidents") = none)
    ∧ ((⟨true, 200, "OK", .str "list"⟩ : NetResponse).ok = true)
    ∧ ((2 : Int) - 1 < 300000)
    ∧ (processRequest []
        0 1 ⟨"/incidents", "GET", none, true, 300000⟩
        (.success ⟨true, 200, "OK", .str "list"⟩) 5).2.2 = true
    ∧ processRequest
        (processRequest [] 0 1 ⟨"/incidents", "GET", none, true, 300000⟩
          (.success ⟨true, 200, "OK", .str "list"⟩) 5).2.1
        2 3 ⟨"/incidents", "GET", none, true, 300000⟩ (.failure "offline") 6
      = (cacheHitResult (.str "list"),
          (processRequest [] 0 1 ⟨"/incidents", "GET", none, true, 300000⟩
            (.success ⟨true, 200, "OK", .str "list"⟩) 5).2.1, false) := by
  have h := (C3_get_cache_semantics [] "/incidents" 300000 0 1
    (.success ⟨true, 200, "OK", .str "list"⟩) 5).2.2.2
    ⟨true, 200, "OK", .str "list"⟩ 2 3 (.failure "offline") 6
    (by decide) (by decide) (by decide)
  exact ⟨by decide, by decide, by decide, h.1, h.2⟩

/-! Claim C4. -/

/-- C4 counterexample: a facade request with `showLoader` whose bridge
promise rejects (the worker timeout) leaves its request identifier in the
pending set, never dispatches `setLoading(false)`, and leaves the loading
flag asserted — the cleanup of lines 111-117 is skipped because the
rejection jumps straight to the catch block and there is no `finally`. -/
theorem C4_counterexample :
    (ApiServiceClass.request [] "GET" "http://localhost:3000/incidents" 7 true
        (.rejected "Timeout al esperar respuesta del worker [api]")).pending ≠ []
    ∧ FAction.setLoading false ∉
        (ApiServiceClass.request [] "GET" "http://localhost:3000/incidents" 7 true
          (.rejected "Timeout al esperar respuesta del worker [api]")).dispatched
    ∧ loadingAfter false
        (ApiServiceClass.request [] "GET" "http://localhost:3000/incidents" 7 true
          (.rejected "Timeout al esperar respuesta del worker [api]")).dispatched
      = true := by
  refine ⟨by decide, by decide, by decide⟩

theorem setDelete_setAdd {s : List String} {x : String} (h : x ∉ s) :
    setDelete (setAdd s x) x = s := by
  simp only [setAdd, h, if_false, setDelete]
  rw [List.filter_append]
  have h1 : s.filter (fun y => y ≠ x) = s := by
    rw [List.filter_eq_self]
    intro y hy
    simp only [decide_eq_true_eq]
    intro hEq
    exact h (hEq ▸ hy)
  have h2 : [x].filter (fun y => y ≠ x) = [] := by simp
  rw [h1, h2, List.append_nil]

/-- C4, amended: with `showLoader`, the request id is added on entry and,
on both resolved outcomes — success and non-success HTTP response alike —
removed again, with `setLoading(false)` dispatched when the pending set
empties; but when the bridge promise rejects (transport/timeout failure)
the removal and the loader-clearing are skipped: the id stays in the
pending set, `setLoading(false)` is never dispatched, and the loading
flag remains asserted. -/
theorem C4_loader_cleanup (pending0 : List String) (method url : String)
    (now : Nat) (hrid : requestId method url now ∉ pending0) :
    (∀ (success : Bool) (status : Option Int) (data : PVal),
      (ApiServiceClass.request pending0 method url now true
          (.resolved success status data)).pending = pending0
      ∧ (pending0 = [] →
          FAction.setLoading false
            ∈ (ApiServiceClass.request pending0 method url now true
                (.resolved success status data)).dispatched
          ∧ loadingAfter false
              (ApiServiceClass.request pending0 method url now true
                (.resolved success status data)).dispatched = false))
    ∧ (∀ m : String,
        (ApiServiceClass.request pending0 method url now true (.rejected m)).pending
          = pending0 ++ [requestId method url now]
        ∧ FAction.setLoading false
            ∉ (ApiServiceClass.request pending0 method url now true
                (.rejected m)).dispatched
        ∧ loadingAfter false
            (ApiServiceClass.request pending0 method url now true
              (.rejected m)).dispatched = true) := by
  have hadd : setAdd pending0 (requestId method url now)
      = pending0 ++ [requestId method url now] := by
    simp [setAdd, hrid]
  have hpd : setDelete (setAdd pending0 (requestId method url now))
      (requestId method url now) = pending0 := setDelete_setAdd hrid
  constructor
  · intro success status data
    constructor
    · cases success <;> simp [ApiServiceClass.request, hpd]
    · intro hp0
      subst hp0
      cases success <;> simp [ApiServiceClass.request, hpd, loadingAfter, handleError]
  · intro m
    refine ⟨?_, ?_, ?_⟩
    · simp [ApiServiceClass.request, hadd]
    · simp [ApiServiceClass.request, handleError]
    · simp [ApiServiceClass.request, loadingAfter, handleError]

theorem C4_loader_cleanup_witness :
    (requestId "GET" "http://localhost:3000/incidents" 7 ∉ ([] : List String))
    ∧ (ApiServiceClass.request [] "GET" "http://localhost:3000/incidents" 7 true
        (.resolved true (some 200) (.prim (.str "ok")))).pending = []
    ∧ (ApiServiceClass.request [] "GET" "http://localhost:3000/incidents" 7 true
        (.rejected "Timeout al esperar respuesta del worker [api]")).pending
      = [] ++ [requestId "GET" "http://localhost:3000/incidents" 7] := by
  have h := C4_loader_cleanup [] "GET" "http://localhost:3000/incidents" 7
    (by decide)
  exact ⟨by decide, (h.1 true (some 200) (.prim (.str "ok"))).1,
    (h.2 "Timeout al esperar respuesta del worker [api]").1⟩

/-! Claim C2. -/

/-- C2: over every event trace from a fresh bridge, the correlation ids
of the posted messages are pairwise distinct (every `sendToWorker` call
receives a globally unique id), every send's promise is settled at most
once regardless of response arrival order (the settlement log never
names the same send twice), and an inbound response whose id is not
pending — a duplicate of an already-resolved id, a response arriving
after the timeout removed the entry, or an unknown id — is ignored
entirely: the handler is the identity on the bridge state. -/
theorem C2_bridge_correlation (names : List String) (es : List BEvent) :
    (bridgeRun (bridgeInit names) es).posted.Nodup
    ∧ ((bridgeRun (bridgeInit names) es).settled.map (·.1)).Nodup
    ∧ (∀ id, mapHas (bridgeRun (bridgeInit names) es).pending id = false →
        bridgeStep (bridgeRun (bridgeInit names) es) (.response id)
          = bridgeRun (bridgeInit names) es) := by
  have hinv := bridgeInv_run (bridgeInit names) es (bridgeInv_init names)
  refine ⟨hinv.postedNodup, hinv.settledNodup, ?_⟩
  intro id hhas
  simp [bridgeStep, hhas]

theorem C2_bridge_correlation_witness :
    (mapHas (bridgeRun (bridgeInit ["api"])
        [.send "api" 100, .send "api" 100,
          .response (generateMessageId 100 0)]).pending
      (generateMessageId 100 0) = false)
    ∧ (bridgeRun (bridgeInit ["api"])
        [.send "api" 100, .send "api" 100,
          .response (generateMessageId 100 0)]).posted.Nodup
    ∧ bridgeStep (bridgeRun (bridgeInit ["api"])
        [.send "api" 100, .send "api" 100, .response (generateMessageId 100 0)])
        (.response (generateMessageId 100 0))
      = bridgeRun (bridgeInit ["api"])
          [.send "api" 100, .send "api" 100, .response (generateMessageId 100 0)] := by
  have h := C2_bridge_correlation ["api"]
    [.send "api" 100, .send "api" 100, .response (generateMessageId 100 0)]
  exact ⟨by decide, h.1, h.2.2 (generateMessageId 100 0) (by decide)⟩

/-! Claim C1. -/

/-- A fixture store: one subscriber, one registered middleware. -/
def c1store : StoreSt := ⟨appState0, [0], 1, 0⟩

/-- A fixture well-formed action. -/
def c1act : Action := ⟨some "ui/setLoading", .prim (.bool true)⟩

/-- C1 counterexample: `dispatch` does not return a deferred.  At a store
with one registered (still unsettled) middleware and one subscriber,
the value the dispatch call returns is the enhanced action object (not a
promise), and at the moment it is returned no subscriber has been
notified and the middleware join is still outstanding — so the caller
holds no deferred that completes after the middlewares settle. -/
theorem C1_counterexample :
    ((dispatchSync ⟨c1store, [], []⟩ c1act 5).map (fun x => x.1.isPromise)
      = .ok false)
    ∧ ((dispatchSync ⟨c1store, [], []⟩ c1act 5).map (fun x => x.2.notifLog.length)
      = .ok 0)
    ∧ ((dispatchSync ⟨c1store, [], []⟩ c1act 5).map (fun x => x.2.joins.length)
      = .ok 1) := by
  refine ⟨rfl, rfl, rfl⟩

theorem settleOne_iterate (store : StoreSt) (ea : EAction)
    (log : List (Nat × AppState)) :
    ∀ k m : Nat, k ≤ m →
      settleOne^[k] ⟨store, [⟨ea, m⟩], log⟩ = ⟨store, [⟨ea, m - k⟩], log⟩ := by
  intro k
  induction k with
  | zero => intro m _; simp
  | succ k ih =>
    intro m hk
    obtain ⟨m', rfl⟩ : ∃ m', m = m' + 1 := ⟨m - 1, by omega⟩
    rw [Function.iterate_succ_apply]
    have hstep : settleOne ⟨store, [⟨ea, m' + 1⟩], log⟩ = ⟨store, [⟨ea, m'⟩], log⟩ := by
      simp [settleOne]
    rw [hstep, ih m' (by omega)]
    have : m' - k = m' + 1 - (k + 1) := by omega
    rw [this]

theorem settleOne_iterate_full (store : StoreSt) (ea : EAction)
    (log : List (Nat × AppState)) (m : Nat) :
    settleOne^[m] ⟨store, [⟨ea, m⟩], log⟩ = ⟨store, [⟨ea, 0⟩], log⟩ := by
  rw [settleOne_iterate store ea log m m le_rfl, Nat.sub_self]

/-- C1, amended: for a well-formed action, `dispatch` synchronously
returns the enhanced action object (stamped with the bumped counter and
the timestamp) — not a deferred — leaving the state and the notification
log untouched and one join pending with one slot per registered
middleware; the reducer/notification continuation runs only after all
middlewares settle (after any `k ≤ middlewareCount` settlement steps
nothing has changed), and when it runs, the state becomes the combined
reducer applied to the dispatched action and every registered subscriber
is invoked exactly once with the full new state. -/
theorem C1_dispatch_pipeline (st : StoreSt) (a : Action) (now : Int)
    (hty : typeTruthy a.type = true) (hnd : st.subscribers.Nodup) :
    ∃ sys' : StoreSys,
      dispatchSync ⟨st, [], []⟩ a now
        = .ok (.actionObject ⟨a.type, a.payload, st.actionCounter + 1, now⟩, sys')
      ∧ sys'.store.state = st.state
      ∧ sys'.notifLog = []
      ∧ sys'.joins
          = [⟨⟨a.type, a.payload, st.actionCounter + 1, now⟩, st.middlewareCount⟩]
      ∧ (∀ k, k ≤ st.middlewareCount →
          (settleOne^[k] sys').store.state = st.state
          ∧ (settleOne^[k] sys').notifLog = [])
      ∧ (settleOne^[st.middlewareCount + 1] sys').store.state
          = createReducer st.state a
      ∧ (settleOne^[st.middlewareCount + 1] sys').notifLog
          = st.subscribers.map (fun sub => (sub, createReducer st.state a))
      ∧ (∀ sub ∈ st.subscribers,
          ((settleOne^[st.middlewareCount + 1] sys').notifLog.filter
            (fun e => e.1 = sub)).length = 1) := by
  refine ⟨⟨{ st with actionCounter := st.actionCounter + 1 },
      [⟨⟨a.type, a.payload, st.actionCounter + 1, now⟩, st.middlewareCount⟩], []⟩,
    ?_, rfl, rfl, rfl, ?_, ?_, ?_, ?_⟩
  · simp [dispatchSync, hty]
  · intro k hk
    rw [settleOne_iterate _ _ _ k st.middlewareCount hk]
    exact ⟨rfl, rfl⟩
  · rw [Function.iterate_succ_apply', settleOne_iterate_full]
    simp [settleOne, runContinuation, EAction.toAction]
  · rw [Function.iterate_succ_apply', settleOne_iterate_full]
    simp [settleOne, runContinuation, EAction.toAction]
  · intro sub hsub
    rw [Function.iterate_succ_apply', settleOne_iterate_full]
    simp only [settleOne, runContinuation, List.nil_append]
    rw [List.filter_map, List.length_map]
    have h1 : (st.subscribers.filter (fun s => s = sub)) = [sub] :=
      filter_eq_singleton_of_nodup hnd hsub
    rw [show ((fun (e : Nat × AppState) => decide (e.1 = sub)) ∘
        (fun sub2 => (sub2, createReducer st.state
          (EAction.toAction ⟨a.type, a.payload, st.actionCounter + 1, now⟩))))
        = (fun s => decide (s = sub)) from rfl]
    rw [h1]
    rfl

theorem C1_dispatch_pipeline_witness :
    (typeTruthy c1act.type = true)
    ∧ (c1store.subscribers.Nodup)
    ∧ ∃ sys' : StoreSys,
        dispatchSync ⟨c1store, [], []⟩ c1act 5
          = .ok (.actionObject ⟨c1act.type, c1act.payload, c1store.actionCounter + 1, 5⟩,
              sys')
        ∧ sys'.store.state = c1store.state
        ∧ sys'.notifLog = []
        ∧ sys'.joins
            = [⟨⟨c1act.type, c1act.payload, c1store.actionCounter + 1, 5⟩,
                c1store.middlewareCount⟩]
        ∧ (∀ k, k ≤ c1store.middlewareCount →
            (settleOne^[k] sys').store.state = c1store.state
            ∧ (settleOne^[k] sys').notifLog = [])
        ∧ (settleOne^[c1store.middlewareCount + 1] sys').store.state
            = createReducer c1store.state c1act
        ∧ (settleOne^[c1store.middlewareCount + 1] sys').notifLog
            = c1store.subscribers.map (fun sub => (sub, createReducer c1store.state c1act))
        ∧ (∀ sub ∈ c1store.subscribers,
            ((settleOne^[c1store.middlewareCount + 1] sys').notifLog.filter
              (fun e => e.1 = sub)).length = 1) :=
  ⟨by decide, by decide, C1_dispatch_pipeline c1store c1act 5 (by decide) (by decide)⟩

end IncidentsClient
